import Mathlib

/-!
Verification of the SpectrumStudio offline render/export pipeline.

The definitions below are a shallow embedding of the `RenderService` class
(`renderPlaylist`, its inner `processFrame` frame clock, the chunked audio
encoding loop and the output finalization) found in the repository's render
service sources.  Unless noted otherwise a definition embeds the newest
revision of the service (the revision with chunked 0.5 s audio encoding,
the 44100 Hz offline context and the 3600 s duration ceiling).  JavaScript
number arithmetic on timestamps and durations is modelled exactly over `ℚ`.
-/

namespace SpectrumStudio

/-- Constant `fps = 30` from `renderPlaylist`. -/
def fps : ℕ := 30

/-- Constant `sampleRate = 44100` from `renderPlaylist` (offline audio context). -/
def sampleRate : ℕ := 44100

/-- Frame count `totalFrames = Math.ceil(totalDuration * fps)` from `renderPlaylist`. -/
def totalFramesOf (totalDuration : ℚ) : ℕ := ⌈totalDuration * (fps : ℚ)⌉₊

/-- One frame handed to `videoEncoder.encode`: the frame index, the
`timestamp` field of the constructed `VideoFrame`, and the `keyFrame`
flag of the encode options. -/
structure SubmittedFrame where
  index : ℕ
  timestamp : ℚ
  keyFrame : Bool
deriving DecidableEq

/-- Frame `i` as submitted by `processFrame`: a `VideoFrame` with
`timestamp: i * (1_000_000 / fps)` encoded with `keyFrame: i % 60 === 0`. -/
def submitFrame (i : ℕ) : SubmittedFrame :=
  ⟨i, (i : ℚ) * (1000000 / (fps : ℚ)), i % 60 == 0⟩

/-- The two sticky flags consulted at the top of `processFrame`:
`signal.aborted` (cooperative cancellation) and `this.hasEncoderError`
(set by the encoder error callbacks).  `aborted i` / `encError i` is the
state of the flag observed when the iteration for frame `i` starts. -/
structure FlagTrace where
  aborted : ℕ → Bool
  encError : ℕ → Bool

/-- The guard `if (signal.aborted || this.hasEncoderError) return;` at the
entry of `processFrame`. -/
def FlagTrace.halted (tr : FlagTrace) (i : ℕ) : Bool :=
  tr.aborted i || tr.encError i

/-- A run in which neither flag is ever set. -/
def cleanTrace : FlagTrace := ⟨fun _ => false, fun _ => false⟩

/-- The chain of `processFrame` iterations starting at frame `i`:
each iteration returns immediately when a flag is set, otherwise submits
frame `i` and, when `i + 1 < totalFrames`, schedules the iteration for
`i + 1` (`offlineCtx.suspend((i+1)/fps).then(() => processFrame(i+1))`).
`fuel` bounds the recursion depth; `total` steps of fuel always suffice. -/
def runFrom (tr : FlagTrace) (total : ℕ) : ℕ → ℕ → List SubmittedFrame
  | _, 0 => []
  | i, fuel + 1 =>
    if tr.halted i then []
    else
      submitFrame i :: (if i + 1 < total then runFrom tr total (i + 1) fuel else [])

/-- All frames submitted to the video encoder during one render:
the chain started by `offlineCtx.suspend(0).then(() => processFrame(0))`. -/
def runFrames (tr : FlagTrace) (total : ℕ) : List SubmittedFrame :=
  runFrom tr total 0 total

theorem runFrom_mem (tr : FlagTrace) (total : ℕ) :
    ∀ fuel i f, f ∈ runFrom tr total i fuel →
      i ≤ f.index ∧ f = submitFrame f.index ∧ tr.halted f.index = false := by
  intro fuel
  induction fuel with
  | zero => intro i f hf; simp [runFrom] at hf
  | succ fuel ih =>
    intro i f hf
    rw [runFrom] at hf
    by_cases hh : tr.halted i
    · simp [hh] at hf
    · simp only [hh, Bool.false_eq_true, if_false] at hf
      rcases List.mem_cons.mp hf with hf | hf
      · subst hf
        exact ⟨le_refl _, rfl, by simpa using hh⟩
      · by_cases hlt : i + 1 < total
        · simp only [if_pos hlt] at hf
          obtain ⟨h1, h2, h3⟩ := ih (i + 1) f hf
          exact ⟨le_trans (Nat.le_succ i) h1, h2, h3⟩
        · simp [if_neg hlt] at hf

theorem runFrom_head_index (tr : FlagTrace) (total : ℕ) :
    ∀ fuel i f, (runFrom tr total i fuel).head? = some f → f.index = i := by
  intro fuel i f hf
  cases fuel with
  | zero => simp [runFrom] at hf
  | succ fuel =>
    rw [runFrom] at hf
    by_cases hh : tr.halted i
    · simp [hh] at hf
    · simp only [hh, Bool.false_eq_true, if_false, List.head?_cons,
        Option.some_inj] at hf
      subst hf; rfl

theorem runFrom_chain_ts (tr : FlagTrace) (total : ℕ) :
    ∀ fuel i, List.Chain' (fun a b => a.timestamp < b.timestamp)
      (runFrom tr total i fuel) := by
  intro fuel
  induction fuel with
  | zero => intro i; simp [runFrom]
  | succ fuel ih =>
    intro i
    rw [runFrom]
    by_cases hh : tr.halted i
    · simp [hh]
    · simp only [hh, Bool.false_eq_true, if_false]
      apply List.chain'_cons'.mpr
      refine ⟨?_, ?_⟩
      · intro y hy
        by_cases hlt : i + 1 < total
        · simp only [if_pos hlt] at hy
          have := runFrom_head_index tr total fuel (i + 1) y hy
          have hy' : y ∈ runFrom tr total (i + 1) fuel := List.mem_of_mem_head? hy
          obtain ⟨_, hsub, _⟩ := runFrom_mem tr total fuel (i + 1) y hy'
          rw [hsub, this]
          show (submitFrame i).timestamp < (submitFrame (i + 1)).timestamp
          simp only [submitFrame]
          have hpos : (0 : ℚ) < 1000000 / (fps : ℚ) := by norm_num [fps]
          have : (i : ℚ) < (i : ℚ) + 1 := by linarith
          push_cast
          nlinarith
        · simp [if_neg hlt] at hy
      · by_cases hlt : i + 1 < total
        · simpa [if_pos hlt] using ih (i + 1)
        · simp [if_neg hlt]

theorem runFrom_indices_clean (total : ℕ) :
    ∀ fuel i, i < total → total ≤ i + fuel →
      (runFrom cleanTrace total i fuel).map (·.index) = List.range' i (total - i) := by
  intro fuel
  induction fuel with
  | zero => intro i h1 h2; omega
  | succ fuel ih =>
    intro i h1 h2
    rw [runFrom]
    have hh : cleanTrace.halted i = false := by simp [cleanTrace, FlagTrace.halted]
    simp only [hh, Bool.false_eq_true, if_false]
    by_cases hlt : i + 1 < total
    · have hrec := ih (i + 1) hlt (by omega)
      simp only [if_pos hlt, List.map_cons, hrec]
      have hidx : (submitFrame i).index = i := rfl
      rw [hidx]
      have : total - i = (total - (i + 1)) + 1 := by omega
      rw [this, List.range'_succ]
    · have : total = i + 1 := by omega
      simp only [if_neg hlt, List.map_cons, List.map_nil]
      have hidx : (submitFrame i).index = i := rfl
      rw [hidx, this]
      simp [List.range'_succ]

/-- C1: for every frame index `i` in `[0, totalFrames)` with
`totalFrames = ceil(totalDuration * fps)` and `fps = 30`, the clean
(uncancelled, error-free) render submits exactly the frames `0, …,
totalFrames - 1` in order; every submitted frame carries timestamp exactly
`i * (1_000_000 / fps)` microseconds — hence submitted timestamps are
strictly increasing across the whole render — and is flagged as a keyframe
exactly when `i % 60 = 0`. -/
theorem frame_timestamps_exact_and_keyframes (totalDuration : ℚ)
    (hpos : 0 < totalFramesOf totalDuration) :
    ((runFrames cleanTrace (totalFramesOf totalDuration)).map (·.index)
        = List.range (totalFramesOf totalDuration)) ∧
    (∀ f ∈ runFrames cleanTrace (totalFramesOf totalDuration),
        f.timestamp = (f.index : ℚ) * (1000000 / 30) ∧
        (f.keyFrame = true ↔ f.index % 60 = 0)) ∧
    List.Chain' (fun a b => a.timestamp < b.timestamp)
      (runFrames cleanTrace (totalFramesOf totalDuration)) := by
  refine ⟨?_, ?_, runFrom_chain_ts _ _ _ _⟩
  · have := runFrom_indices_clean (totalFramesOf totalDuration)
      (totalFramesOf totalDuration) 0 hpos (by omega)
    simpa [runFrames, List.range_eq_range'] using this
  · intro f hf
    obtain ⟨_, hsub, _⟩ := runFrom_mem cleanTrace (totalFramesOf totalDuration)
      (totalFramesOf totalDuration) 0 f hf
    constructor
    · rw [hsub]; simp [submitFrame, fps]
    · rw [hsub]; simp [submitFrame]

/-- Witness for C1 at `totalDuration = 2` seconds (60 frames). -/
theorem frame_timestamps_exact_and_keyframes_witness :
    0 < totalFramesOf 2 ∧
    ((runFrames cleanTrace (totalFramesOf 2)).map (·.index)
        = List.range (totalFramesOf 2)) ∧
    (∀ f ∈ runFrames cleanTrace (totalFramesOf 2),
        f.timestamp = (f.index : ℚ) * (1000000 / 30) ∧
        (f.keyFrame = true ↔ f.index % 60 = 0)) := by
  have h : 0 < totalFramesOf 2 := by
    rw [totalFramesOf]
    norm_num [fps]
  obtain ⟨h1, h2, _⟩ := frame_timestamps_exact_and_keyframes 2 h
  exact ⟨h, h1, h2⟩

/-- C2: once the cancellation flag or the sticky encoder error flag is set,
no further frame is submitted: with both flags sticky, if one of them is
already set when the iteration for frame `k + 1` would run, every frame
that was submitted during the whole render has index at most `k`. -/
theorem no_frames_after_flag_set (tr : FlagTrace) (total k : ℕ)
    (hab : ∀ i j, i ≤ j → tr.aborted i = true → tr.aborted j = true)
    (herr : ∀ i j, i ≤ j → tr.encError i = true → tr.encError j = true)
    (hk : tr.aborted (k + 1) = true ∨ tr.encError (k + 1) = true) :
    ∀ f ∈ runFrames tr total, f.index ≤ k := by
  intro f hf
  obtain ⟨_, _, hclear⟩ := runFrom_mem tr total total 0 f hf
  by_contra hgt
  have hge : k + 1 ≤ f.index := by omega
  have : tr.halted f.index = true := by
    rcases hk with h | h
    · simp [FlagTrace.halted, hab (k + 1) f.index hge h]
    · simp [FlagTrace.halted, herr (k + 1) f.index hge h]
  rw [hclear] at this
  exact Bool.false_ne_true this

/-- A trace in which the video encoder reports a fatal error while frame 50
is in flight, so the flag is observed from iteration 51 onwards. -/
def errAt51Trace : FlagTrace :=
  ⟨fun _ => false, fun i => decide (51 ≤ i)⟩

/-- Witness for C2: an encoder error at frame 50 of 150 means no frame with
index 51 … 149 is ever submitted. -/
theorem no_frames_after_flag_set_witness :
    (∀ i j, i ≤ j → errAt51Trace.encError i = true → errAt51Trace.encError j = true) ∧
    errAt51Trace.encError 51 = true ∧
    ∀ f ∈ runFrames errAt51Trace 150, f.index ≤ 50 := by
  have hst : ∀ i j, i ≤ j → errAt51Trace.encError i = true →
      errAt51Trace.encError j = true := by
    intro i j hij h
    simp only [errAt51Trace, decide_eq_true_eq] at h ⊢
    omega
  refine ⟨hst, by simp [errAt51Trace], ?_⟩
  exact no_frames_after_flag_set errAt51Trace 150 50
    (fun i j _ h => by simp [errAt51Trace] at h) hst
    (Or.inr (by simp [errAt51Trace]))

/-! ### Chunked audio encoding and post-render sequencing (part of `renderPlaylist`) -/

/-- Constant `CHUNK_DURATION_SEC = 0.5` from `renderPlaylist`. -/
def chunkDurationSec : ℚ := 1 / 2

/-- Constant `chunkFrames = Math.floor(sampleRate * CHUNK_DURATION_SEC)`. -/
def chunkFrames : ℕ := ⌊(sampleRate : ℚ) * chunkDurationSec⌋₊

/-- One `AudioData` handed to `audioEncoder.encode` in the chunked audio
loop: start sample index `i`, `numberOfFrames: Math.min(chunkFrames,
totalAudioFrames - i)` and `timestamp: (i / sampleRate) * 1_000_000`. -/
structure AudioChunk where
  startSample : ℕ
  numFrames : ℕ
  timestamp : ℚ
deriving DecidableEq

/-- The chunk encoded at loop index `i`. -/
def audioChunkOf (totalAudioFrames i : ℕ) : AudioChunk :=
  ⟨i, min chunkFrames (totalAudioFrames - i), ((i : ℚ) / (sampleRate : ℚ)) * 1000000⟩

/-- The loop `for (let i = 0; i < totalAudioFrames; i += chunkFrames)` in
the error-free case.  `fuel` bounds the iteration count. -/
def audioChunkLoop (total : ℕ) : ℕ → ℕ → List AudioChunk
  | _, 0 => []
  | i, fuel + 1 =>
    if i < total then audioChunkOf total i :: audioChunkLoop total (i + chunkFrames) fuel
    else []

/-- All audio chunks submitted after the video phase, in submission order. -/
def audioChunks (total : ℕ) : List AudioChunk :=
  audioChunkLoop total 0 (total + 1)

/-- Observable pipeline events of one successful render, in program order. -/
inductive RenderEvent where
  | videoFrame (f : SubmittedFrame)
  | videoFlush
  | videoClose
  | audioChunkEncode (c : AudioChunk)
  | audioFlush
  | audioClose
  | muxFinalize
deriving DecidableEq

/-- Pipeline phase of an event, increasing along a successful render. -/
def phaseRank : RenderEvent → ℕ
  | .videoFrame _ => 0
  | .videoFlush => 1
  | .videoClose => 2
  | .audioChunkEncode _ => 3
  | .audioFlush => 4
  | .audioClose => 5
  | .muxFinalize => 6

/-- The event sequence of a successful (uncancelled, error-free) render,
following the straight-line code after `startRendering` resolves: flush and
close the video encoder, run the chunked audio loop, flush and close the
audio encoder, then `muxer.finalize()`. -/
def successTrace (totalFrames totalAudioFrames : ℕ) : List RenderEvent :=
  (runFrames cleanTrace totalFrames).map RenderEvent.videoFrame
    ++ [RenderEvent.videoFlush, RenderEvent.videoClose]
    ++ (audioChunks totalAudioFrames).map RenderEvent.audioChunkEncode
    ++ [RenderEvent.audioFlush, RenderEvent.audioClose, RenderEvent.muxFinalize]

theorem chunkFrames_eq : chunkFrames = 22050 := by
  norm_num [chunkFrames, chunkDurationSec, sampleRate]

theorem audioChunkLoop_mem (total : ℕ) :
    ∀ fuel i c, c ∈ audioChunkLoop total i fuel →
      (∃ m, c.startSample = i + m * chunkFrames) ∧ c.startSample < total ∧
        c = audioChunkOf total c.startSample := by
  intro fuel
  induction fuel with
  | zero => intro i c hc; simp [audioChunkLoop] at hc
  | succ fuel ih =>
    intro i c hc
    rw [audioChunkLoop] at hc
    by_cases hi : i < total
    · simp only [if_pos hi] at hc
      rcases List.mem_cons.mp hc with hc | hc
      · subst hc; exact ⟨⟨0, by simp [audioChunkOf]⟩, hi, rfl⟩
      · obtain ⟨⟨m, hm⟩, h2, h3⟩ := ih (i + chunkFrames) c hc
        exact ⟨⟨m + 1, by rw [hm]; ring⟩, h2, h3⟩
    · simp [if_neg hi] at hc

theorem audioChunkLoop_head_start (total : ℕ) :
    ∀ fuel i c, (audioChunkLoop total i fuel).head? = some c → c.startSample = i := by
  intro fuel i c hc
  cases fuel with
  | zero => simp [audioChunkLoop] at hc
  | succ fuel =>
    rw [audioChunkLoop] at hc
    by_cases hi : i < total
    · simp only [if_pos hi, List.head?_cons, Option.some_inj] at hc
      subst hc; rfl
    · simp [if_neg hi] at hc

theorem div_lt_div_of_pos_left_of_lt {a b c : ℚ} (hc : 0 < c) (h : a < b) :
    a / c < b / c :=
  (div_lt_div_iff_of_pos_right hc).mpr h

theorem audioChunkLoop_chain_ts (total : ℕ) :
    ∀ fuel i, List.Chain' (fun a b => a.timestamp < b.timestamp)
      (audioChunkLoop total i fuel) := by
  intro fuel
  induction fuel with
  | zero => intro i; simp [audioChunkLoop]
  | succ fuel ih =>
    intro i
    rw [audioChunkLoop]
    by_cases hi : i < total
    · simp only [if_pos hi]
      apply List.chain'_cons'.mpr
      refine ⟨?_, ih (i + chunkFrames)⟩
      intro y hy
      have hstart := audioChunkLoop_head_start total fuel (i + chunkFrames) y hy
      have hy' : y ∈ audioChunkLoop total (i + chunkFrames) fuel := List.mem_of_mem_head? hy
      obtain ⟨_, _, hsub⟩ := audioChunkLoop_mem total fuel (i + chunkFrames) y hy'
      rw [hsub, hstart]
      show (audioChunkOf total i).timestamp < (audioChunkOf total (i + chunkFrames)).timestamp
      simp only [audioChunkOf]
      have hck : (0 : ℚ) < (chunkFrames : ℚ) := by norm_num [chunkFrames_eq]
      have hsr : (0 : ℚ) < (sampleRate : ℚ) := by norm_num [sampleRate]
      push_cast
      have key : (i : ℚ) / (sampleRate : ℚ) < ((i : ℚ) + (chunkFrames : ℚ)) / (sampleRate : ℚ) :=
        div_lt_div_of_pos_left_of_lt hsr (by linarith)
      exact mul_lt_mul_of_pos_right key (by norm_num)
    · simp [if_neg hi]

theorem pairwise_of_all {α : Type} (R : α → α → Prop) :
    ∀ l : List α, (∀ a b, R a b) → l.Pairwise R := by
  intro l h
  induction l with
  | nil => simp
  | cons x xs ih => exact List.Pairwise.cons (fun b _ => h x b) ih

theorem rank_of_videoFrame (tf : ℕ) :
    ∀ e ∈ (runFrames cleanTrace tf).map RenderEvent.videoFrame, phaseRank e = 0 := by
  intro e he
  obtain ⟨f, _, rfl⟩ := List.mem_map.mp he
  rfl

theorem rank_of_audioChunkEncode (ta : ℕ) :
    ∀ e ∈ (audioChunks ta).map RenderEvent.audioChunkEncode, phaseRank e = 3 := by
  intro e he
  obtain ⟨c, _, rfl⟩ := List.mem_map.mp he
  rfl

theorem successTrace_pairwise (tf ta : ℕ) :
    List.Pairwise (fun a b => phaseRank a ≤ phaseRank b) (successTrace tf ta) := by
  have hv := rank_of_videoFrame tf
  have ha := rank_of_audioChunkEncode ta
  have hlit : ∀ b ∈ ([RenderEvent.audioFlush, RenderEvent.audioClose,
      RenderEvent.muxFinalize] : List RenderEvent), 3 ≤ phaseRank b := by
    intro b hb
    simp only [List.mem_cons, List.not_mem_nil, or_false] at hb
    rcases hb with rfl | rfl | rfl <;> simp [phaseRank]
  unfold successTrace
  simp only [List.append_assoc]
  rw [List.pairwise_append]
  refine ⟨?_, ?_, ?_⟩
  · exact List.pairwise_map.mpr (pairwise_of_all _ _ (fun _ _ => le_refl 0))
  · rw [List.pairwise_append]
    refine ⟨by decide, ?_, ?_⟩
    · rw [List.pairwise_append]
      refine ⟨?_, by decide, ?_⟩
      · exact List.pairwise_map.mpr (pairwise_of_all _ _ (fun _ _ => le_refl 3))
      · intro a haa b hb
        rw [ha a haa]
        exact hlit b hb
    · intro a haa b hb
      have h3 : 3 ≤ phaseRank b := by
        rcases List.mem_append.mp hb with hb | hb
        · rw [ha b hb]
        · exact hlit b hb
      have h2 : phaseRank a ≤ 2 := by
        simp only [List.mem_cons, List.not_mem_nil, or_false] at haa
        rcases haa with rfl | rfl <;> simp [phaseRank]
      omega
  · intro a haa b hb
    rw [hv a haa]
    exact Nat.zero_le _

/-- C3: in a successful render the phases never interleave — every video
frame precedes the video flush and close, which precede every audio chunk,
which precede the audio flush and close, which precede the final
`muxer.finalize()` (so every audio chunk reaches the muxer after all video
chunks); the audio mixdown is cut at a fixed 0.5 s stride (`chunkFrames /
sampleRate = 1/2`), every chunk holds `min(chunkFrames, totalAudioFrames -
start)` frames starting at a multiple of `chunkFrames`, its timestamp is
exactly `(startSample / sampleRate) * 1_000_000` microseconds, and chunk
timestamps are strictly increasing. -/
theorem video_then_chunked_audio_then_finalize (totalFrames totalAudioFrames : ℕ) :
    List.Pairwise (fun a b => phaseRank a ≤ phaseRank b)
      (successTrace totalFrames totalAudioFrames) ∧
    (∀ c ∈ audioChunks totalAudioFrames,
        c.timestamp = ((c.startSample : ℚ) / (sampleRate : ℚ)) * 1000000 ∧
        c.numFrames = min chunkFrames (totalAudioFrames - c.startSample) ∧
        c.startSample % chunkFrames = 0 ∧ 0 < c.numFrames) ∧
    List.Chain' (fun a b => a.timestamp < b.timestamp) (audioChunks totalAudioFrames) ∧
    (chunkFrames : ℚ) / (sampleRate : ℚ) = chunkDurationSec := by
  refine ⟨successTrace_pairwise _ _, ?_, ?_, ?_⟩
  · intro c hc
    simp only [audioChunks] at hc
    obtain ⟨⟨m, hm⟩, hlt, hsub⟩ :=
      audioChunkLoop_mem totalAudioFrames (totalAudioFrames + 1) 0 c hc
    have ht : c.timestamp = ((c.startSample : ℚ) / (sampleRate : ℚ)) * 1000000 := by
      rw [hsub]; simp [audioChunkOf]
    have hn : c.numFrames = min chunkFrames (totalAudioFrames - c.startSample) := by
      rw [hsub]; simp [audioChunkOf]
    refine ⟨ht, hn, ?_, ?_⟩
    · rw [hm]
      simp [Nat.mul_mod_left]
    · rw [hn]
      refine lt_min_iff.mpr ⟨?_, ?_⟩
      · norm_num [chunkFrames_eq]
      · omega
  · exact audioChunkLoop_chain_ts totalAudioFrames (totalAudioFrames + 1) 0
  · norm_num [chunkFrames_eq, sampleRate, chunkDurationSec]

/-- Witness for C3 on a 50000-sample mixdown: the chunk starting at sample
22050 is submitted with timestamp exactly 0.5 s = 500000 µs. -/
theorem video_then_chunked_audio_then_finalize_witness :
    (audioChunkOf 50000 22050 ∈ audioChunks 50000) ∧
    (audioChunkOf 50000 22050).timestamp = 500000 ∧
    0 < (audioChunkOf 50000 22050).numFrames := by
  have hmem : audioChunkOf 50000 22050 ∈ audioChunks 50000 := by
    simp only [audioChunks]
    rw [audioChunkLoop]
    norm_num [chunkFrames_eq]
    rw [audioChunkLoop]
    norm_num [chunkFrames_eq]
  have h := (video_then_chunked_audio_then_finalize 10 50000).2.1 _ hmem
  refine ⟨hmem, ?_, h.2.2.2⟩
  rw [h.1]
  norm_num [audioChunkOf, sampleRate]

/-! ### Pre-flight validation in `renderPlaylist` -/

/-- Resource-acquisition steps of `renderPlaylist` that follow the input
validation: allocating the `OfflineAudioContext` sample buffer and
constructing the two encoders, in program order. -/
inductive SetupEvent where
  | allocAudioBuffer
  | constructVideoEncoder
  | constructAudioEncoder
deriving DecidableEq

/-- Total duration `validBuffers.reduce((acc, b) => acc + b.duration, 0)`
over the per-track decode results (`none` = the track failed to resolve or
decode and was dropped). -/
def totalDurationOf (decoded : List (Option ℚ)) : ℚ :=
  (decoded.filterMap id).foldl (· + ·) 0

/-- The validation / setup prefix of `renderPlaylist`: the guard
`tracks.length === 0`, the guard `validBuffers.length === 0 ||
totalDuration === 0`, and the guard `totalDuration > 3600`, each throwing
before anything is acquired; only when all pass are the audio buffer
allocated and the encoders constructed.  Returns the setup events that
happened together with the outcome. -/
def renderSetup (decoded : List (Option ℚ)) : List SetupEvent × Except String ℚ :=
  if decoded.length = 0 then ([], .error "No tracks to render")
  else if (decoded.filterMap id).length = 0 ∨ totalDurationOf decoded = 0 then
    ([], .error "렌더링할 유효한 오디오 데이터가 없습니다.")
  else if totalDurationOf decoded > 3600 then
    ([], .error "총 재생 시간이 너무 깁니다. 1시간 이내로 트랙을 구성해주세요.")
  else
    ([SetupEvent.allocAudioBuffer, SetupEvent.constructVideoEncoder,
      SetupEvent.constructAudioEncoder], .ok (totalDurationOf decoded))

theorem totalDurationOf_nil_of_filterMap_nil (decoded : List (Option ℚ))
    (h : decoded.filterMap id = []) : totalDurationOf decoded = 0 := by
  rw [totalDurationOf, h]
  rfl

/-- C4: `renderPlaylist` validates before acquiring anything — every
validation failure is raised with no buffer allocated and no encoder
constructed: an empty track list errors; zero successfully decoded tracks,
or a zero total decoded duration, errors; a total duration strictly above
the 3600 s ceiling errors; and a total duration of exactly 3600 s passes
validation. -/
theorem preflight_validation (decoded : List (Option ℚ)) :
    (∀ msg, (renderSetup decoded).2 = .error msg → (renderSetup decoded).1 = []) ∧
    (decoded = [] → renderSetup decoded = ([], .error "No tracks to render")) ∧
    (decoded ≠ [] → decoded.filterMap id = [] ∨ totalDurationOf decoded = 0 →
      renderSetup decoded = ([], .error "렌더링할 유효한 오디오 데이터가 없습니다.")) ∧
    (totalDurationOf decoded > 3600 →
      renderSetup decoded =
        ([], .error "총 재생 시간이 너무 깁니다. 1시간 이내로 트랙을 구성해주세요.")) ∧
    (decoded.filterMap id ≠ [] → totalDurationOf decoded = 3600 →
      renderSetup decoded =
        ([SetupEvent.allocAudioBuffer, SetupEvent.constructVideoEncoder,
          SetupEvent.constructAudioEncoder], .ok 3600)) := by
  refine ⟨?_, ?_, ?_, ?_, ?_⟩
  · intro msg herr
    rw [renderSetup] at herr ⊢
    by_cases h1 : decoded.length = 0
    · rw [if_pos h1]
    · rw [if_neg h1] at herr ⊢
      by_cases h2 : (decoded.filterMap id).length = 0 ∨ totalDurationOf decoded = 0
      · rw [if_pos h2]
      · rw [if_neg h2] at herr ⊢
        by_cases h3 : totalDurationOf decoded > 3600
        · rw [if_pos h3]
        · rw [if_neg h3] at herr
          exact absurd herr (by simp)
  · intro h
    subst h
    rfl
  · intro hne hz
    rw [renderSetup]
    have hlen : ¬ decoded.length = 0 := by
      simpa [List.length_eq_zero] using hne
    rw [if_neg hlen]
    have h2 : (decoded.filterMap id).length = 0 ∨ totalDurationOf decoded = 0 := by
      rcases hz with h | h
      · exact Or.inl (by simp [h])
      · exact Or.inr h
    rw [if_pos h2]
  · intro hgt
    have hfm : decoded.filterMap id ≠ [] := by
      intro h
      rw [totalDurationOf_nil_of_filterMap_nil decoded h] at hgt
      norm_num at hgt
    have hne : decoded ≠ [] := by
      intro h
      exact hfm (by simp [h])
    rw [renderSetup]
    have hlen : ¬ decoded.length = 0 := by
      simpa [List.length_eq_zero] using hne
    rw [if_neg hlen]
    have hnz : ¬ ((decoded.filterMap id).length = 0 ∨ totalDurationOf decoded = 0) := by
      push_neg
      refine ⟨by simpa [List.length_eq_zero] using hfm, ?_⟩
      intro h
      rw [h] at hgt
      norm_num at hgt
    rw [if_neg hnz, if_pos hgt]
  · intro hfm h36
    have hne : decoded ≠ [] := by
      intro h
      exact hfm (by simp [h])
    rw [renderSetup]
    have hlen : ¬ decoded.length = 0 := by
      simpa [List.length_eq_zero] using hne
    rw [if_neg hlen]
    have hnz : ¬ ((decoded.filterMap id).length = 0 ∨ totalDurationOf decoded = 0) := by
      push_neg
      refine ⟨by simpa [List.length_eq_zero] using hfm, ?_⟩
      rw [h36]
      norm_num
    rw [if_neg hnz, if_neg (by rw [h36]; norm_num), h36]

/-- Witness for C4: a single successfully decoded track of exactly 3600 s
is accepted; an empty list, an all-failed list and a 3601 s playlist are
each rejected before any acquisition. -/
theorem preflight_validation_witness :
    renderSetup [] = ([], .error "No tracks to render") ∧
    renderSetup [none] = ([], .error "렌더링할 유효한 오디오 데이터가 없습니다.") ∧
    renderSetup [some 3601] =
      ([], .error "총 재생 시간이 너무 깁니다. 1시간 이내로 트랙을 구성해주세요.") ∧
    renderSetup [some 3600] =
      ([SetupEvent.allocAudioBuffer, SetupEvent.constructVideoEncoder,
        SetupEvent.constructAudioEncoder], .ok 3600) := by
  refine ⟨(preflight_validation []).2.1 rfl, ?_, ?_, ?_⟩
  · exact (preflight_validation [none]).2.2.1 (by simp) (Or.inl (by simp))
  · refine (preflight_validation [some 3601]).2.2.2.1 ?_
    show totalDurationOf [some 3601] > 3600
    simp only [totalDurationOf, List.filterMap_cons, id, List.filterMap_nil]
    norm_num
  · refine (preflight_validation [some 3600]).2.2.2.2 (by simp) ?_
    show totalDurationOf [some 3600] = 3600
    simp only [totalDurationOf, List.filterMap_cons, id, List.filterMap_nil]
    norm_num

/-! ### Finalization when the sticky encoder-error flag is set -/

/-- Observable finalization steps after `startRendering` resolves. -/
inductive FinalEvent where
  | videoFlush
  | videoClose
  | audioEncode
  | audioFlush
  | audioClose
  | muxFinalize
deriving DecidableEq

/-- The finalization sequence of `renderPlaylist` in
`src/services/renderService.ts` (the revision guarding the flushes):
`if (!this.hasEncoderError) await videoEncoder.flush(); videoEncoder.close();
if (!this.hasEncoderError) { audioEncoder.encode(...); await
audioEncoder.flush(); } audioEncoder.close(); muxer.finalize();`. -/
def finalizeSequence (hasEncoderError : Bool) : List FinalEvent :=
  (if hasEncoderError then [] else [FinalEvent.videoFlush])
    ++ [FinalEvent.videoClose]
    ++ (if hasEncoderError then [] else [FinalEvent.audioEncode, FinalEvent.audioFlush])
    ++ [FinalEvent.audioClose, FinalEvent.muxFinalize]

/-- C5: with the sticky encoder-error flag set, the remaining flush calls
of the failed pipeline are skipped — the video flush is never awaited and
no audio is encoded or flushed — yet both encoders are still closed and
the muxer is still finalized (as the last step), so the render terminates;
without the flag, the full flush/encode/flush sequence runs. -/
theorem error_flag_skips_flushes_but_finalizes :
    FinalEvent.videoFlush ∉ finalizeSequence true ∧
    FinalEvent.audioEncode ∉ finalizeSequence true ∧
    FinalEvent.audioFlush ∉ finalizeSequence true ∧
    FinalEvent.muxFinalize ∈ finalizeSequence true ∧
    (finalizeSequence true).getLast? = some FinalEvent.muxFinalize ∧
    finalizeSequence true =
      [FinalEvent.videoClose, FinalEvent.audioClose, FinalEvent.muxFinalize] ∧
    finalizeSequence false =
      [FinalEvent.videoFlush, FinalEvent.videoClose, FinalEvent.audioEncode,
        FinalEvent.audioFlush, FinalEvent.audioClose, FinalEvent.muxFinalize] := by
  refine ⟨?_, ?_, ?_, ?_, rfl, rfl, rfl⟩ <;> decide

/-! ### Beat / energy detection in `processFrame` -/

/-- The visualizer modes dispatched by `renderSpectrum`. -/
inductive VisualizerMode where
  | BARS
  | WAVE
  | CIRCULAR
  | DUAL_BARS
  | RIPPLE
  | PIXEL
  | EQUALIZER
  | STARBURST
  | BUTTERFLY
  | AURORA
  | SPECTRUM
  | DOT_WAVE
  | LED_BARS
  | FLUID
  | PARTICLES
  | JELLY_WAVE
  | PULSE_CIRCLES
  | FLOWER_PETALS
deriving DecidableEq

/-- The modes for which `processFrame` samples time-domain (waveform) data
and uses the mean-absolute-deviation energy: the negation of the guard
`visualizerMode !== WAVE && visualizerMode !== FLUID && visualizerMode !==
JELLY_WAVE`. -/
def isTimeDomainMode (m : VisualizerMode) : Bool :=
  m == VisualizerMode.WAVE || m == VisualizerMode.FLUID || m == VisualizerMode.JELLY_WAVE

/-- The loop `for (let k = 0; k < dataArray.length; k += 4) sum +=
Math.abs(dataArray[k] - 128)`, walking the waveform array with stride 4.
`data k` is the byte value `dataArray[k]` (0–255). -/
def strideSumAux (data : ℕ → ℕ) (len : ℕ) : ℕ → ℕ → ℚ
  | _, 0 => 0
  | k, fuel + 1 =>
    if k < len then |((data k : ℚ) - 128)| + strideSumAux data len (k + 4) fuel
    else 0

/-- The complete stride-4 sum of absolute deviations from 128. -/
def strideSum (data : ℕ → ℕ) (len : ℕ) : ℚ :=
  strideSumAux data len 0 len

/-- Energy `bassEnergy` as computed by `processFrame`: for frequency-domain modes
the mean `(dataArray[0] + … + dataArray[4]) / 5` of the lowest five bins;
for time-domain modes `(sum / (dataArray.length / 4)) * 2`. -/
def bassEnergy (mode : VisualizerMode) (data : ℕ → ℕ) (len : ℕ) : ℚ :=
  if isTimeDomainMode mode = false then
    ((data 0 : ℚ) + (data 1 : ℚ) + (data 2 : ℚ) + (data 3 : ℚ) + (data 4 : ℚ)) / 5
  else
    (strideSum data len / ((len : ℚ) / 4)) * 2

/-- Beat flag `const isBeat = bassEnergy > 200`. -/
def isBeat (mode : VisualizerMode) (data : ℕ → ℕ) (len : ℕ) : Bool :=
  decide (bassEnergy mode data len > 200)

theorem strideSumAux_eq_sum (data : ℕ → ℕ) (len : ℕ) :
    ∀ m k fuel, len = k + 4 * m → m ≤ fuel →
      strideSumAux data len k fuel = ∑ j ∈ Finset.range m, |((data (k + 4 * j) : ℚ) - 128)| := by
  intro m
  induction m with
  | zero =>
    intro k fuel hlen _
    have hk : ¬ k < len := by omega
    cases fuel with
    | zero => simp [strideSumAux]
    | succ fuel => simp [strideSumAux, hk]
  | succ m ih =>
    intro k fuel hlen hm
    have hk : k < len := by omega
    cases fuel with
    | zero => omega
    | succ fuel =>
      rw [strideSumAux, if_pos hk, ih (k + 4) fuel (by omega) (by omega)]
      rw [Finset.sum_range_succ']
      have : ∀ j, k + 4 * (j + 1) = k + 4 + 4 * j := by intro j; ring
      simp only [this, mul_zero, add_zero]
      ring

/-- C6: the beat/energy signal of `processFrame`: for frequency-domain
visual modes the energy is the mean of the lowest 5 frequency bins; for the
time-domain (waveform) modes — exactly `WAVE`, `FLUID` and `JELLY_WAVE` —
it is twice the mean absolute deviation from the center value 128 over the
samples subsampled at stride 4; a beat is declared exactly when the energy
exceeds the fixed threshold 200. -/
theorem beat_energy_detection (mode : VisualizerMode) (data : ℕ → ℕ) (len : ℕ)
    (h4 : 4 ∣ len) :
    (isTimeDomainMode mode = false →
      bassEnergy mode data len =
        ((data 0 : ℚ) + (data 1 : ℚ) + (data 2 : ℚ) + (data 3 : ℚ) + (data 4 : ℚ)) / 5) ∧
    (isTimeDomainMode mode = true →
      bassEnergy mode data len =
        2 * ((∑ j ∈ Finset.range (len / 4), |((data (4 * j) : ℚ) - 128)|) / ((len : ℚ) / 4))) ∧
    (isBeat mode data len = true ↔ bassEnergy mode data len > 200) ∧
    (isTimeDomainMode mode = true ↔
      (mode = VisualizerMode.WAVE ∨ mode = VisualizerMode.FLUID ∨
        mode = VisualizerMode.JELLY_WAVE)) := by
  obtain ⟨q, hq⟩ := h4
  refine ⟨?_, ?_, ?_, ?_⟩
  · intro hm
    rw [bassEnergy, if_pos hm]
  · intro hm
    rw [bassEnergy, if_neg (by rw [hm]; simp)]
    have hsum := strideSumAux_eq_sum data len q 0 len (by omega) (by omega)
    have hq4 : len / 4 = q := by omega
    rw [strideSum, hsum, hq4]
    simp only [zero_add]
    ring
  · rw [isBeat]
    exact decide_eq_true_iff
  · cases mode <;> simp [isTimeDomainMode]

/-- Witness for C6 on a concrete 8-sample waveform in `WAVE` mode:
samples at indices 0 and 4 are 130 and 126, energy is `2 * ((2 + 2) / 2) =
4`, below the 200 threshold, so no beat. -/
theorem beat_energy_detection_witness :
    (4 : ℕ) ∣ 8 ∧
    bassEnergy VisualizerMode.WAVE (fun k => 130 - k) 8 =
      2 * ((∑ j ∈ Finset.range 2, |(((130 - 4 * j : ℕ) : ℚ) - 128)|) / ((8 : ℚ) / 4)) ∧
    isBeat VisualizerMode.WAVE (fun k => 130 - k) 8 = false := by
  have h := beat_energy_detection VisualizerMode.WAVE (fun k => 130 - k) 8 ⟨2, rfl⟩
  refine ⟨⟨2, rfl⟩, h.2.1 rfl, ?_⟩
  have hval : bassEnergy VisualizerMode.WAVE (fun k => 130 - k) 8 = 4 := by
    rw [h.2.1 rfl]
    rw [Finset.sum_range_succ, Finset.sum_range_succ, Finset.sum_range_zero]
    norm_num
  have hgt : ¬ (bassEnergy VisualizerMode.WAVE (fun k => 130 - k) 8 > 200) := by
    rw [hval]; norm_num
  cases hx : isBeat VisualizerMode.WAVE (fun k => 130 - k) 8
  · rfl
  · exact absurd (h.2.2.1.mp hx) hgt

/-! ### Output finalization of `renderPlaylist` -/

/-- The suggested filename `SpectrumStudio_Export_${Date.now()}.mp4`. -/
def exportFilename (now : ℕ) : String :=
  "SpectrumStudio_Export_" ++ toString now ++ ".mp4"

/-- The tail of `renderPlaylist` after `muxer.finalize()`: with a writable
stream return `null`; otherwise check `buffer.byteLength === 0` (throwing
the zero-byte error) and return the blob URL with the suggested
filename. -/
def finalizeOutput (hasStream : Bool) (byteLength : ℕ) (url : String) (now : ℕ) :
    Except String (Option (String × String)) :=
  if hasStream then .ok none
  else if byteLength = 0 then .error "생성된 파일 크기가 0바이트입니다."
  else .ok (some (url, exportFilename now))

/-- C7: with a stream target `renderPlaylist` returns `null`; without one a
zero-byte finalized buffer is a fatal error, and otherwise the blob URL is
returned with a filename that is exactly the fixed prefix
`SpectrumStudio_Export_` followed by the timestamp and `.mp4`. -/
theorem output_finalization (hasStream : Bool) (byteLength : ℕ) (url : String) (now : ℕ) :
    (hasStream = true → finalizeOutput hasStream byteLength url now = .ok none) ∧
    (hasStream = false → byteLength = 0 →
      finalizeOutput hasStream byteLength url now =
        .error "생성된 파일 크기가 0바이트입니다.") ∧
    (hasStream = false → byteLength ≠ 0 →
      finalizeOutput hasStream byteLength url now = .ok (some (url, exportFilename now))) ∧
    exportFilename now = "SpectrumStudio_Export_" ++ (toString now ++ ".mp4") ∧
    exportFilename now = ("SpectrumStudio_Export_" ++ toString now) ++ ".mp4" := by
  refine ⟨?_, ?_, ?_, ?_, rfl⟩
  · intro h
    rw [finalizeOutput, if_pos h]
  · intro h hz
    rw [finalizeOutput, h]
    simp only [Bool.false_eq_true, if_false, if_pos hz]
  · intro h hz
    rw [finalizeOutput, h]
    simp only [Bool.false_eq_true, if_false, if_neg hz]
  · rw [exportFilename, String.append_assoc]

/-- Witness for C7 at timestamp 1700000000000: stream mode returns `null`,
an empty buffer is rejected, a 5-byte buffer yields the blob URL and the
timestamped filename. -/
theorem output_finalization_witness :
    finalizeOutput true 0 "blob:a" 1700000000000 = .ok none ∧
    finalizeOutput false 0 "blob:a" 1700000000000 =
      .error "생성된 파일 크기가 0바이트입니다." ∧
    finalizeOutput false 5 "blob:a" 1700000000000 =
      .ok (some ("blob:a", exportFilename 1700000000000)) := by
  refine ⟨?_, ?_, ?_⟩
  · exact (output_finalization true 0 "blob:a" 1700000000000).1 rfl
  · exact (output_finalization false 0 "blob:a" 1700000000000).2.1 rfl rfl
  · exact (output_finalization false 5 "blob:a" 1700000000000).2.2.1 rfl (by norm_num)

/-! ### Progress reporting across one `renderPlaylist` invocation -/

/-- The `onProgress` calls of the batched decode loop: each batch of
`BATCH_SIZE = 4` tracks reports `onProgress(Math.min(processedCount,
tracks.length), tracks.length, …)` after it completes. -/
def decodeProgressAux (n : ℕ) : ℕ → ℕ → ℕ → List (ℕ × ℕ)
  | _, _, 0 => []
  | i, processed, fuel + 1 =>
    if i < n then
      (min (processed + min 4 (n - i)) n, n) ::
        decodeProgressAux n (i + 4) (processed + min 4 (n - i)) fuel
    else []

/-- All `(current, total)` pairs reported during the audio decode phase:
the initial `onProgress(0, tracks.length, …)` followed by the per-batch
reports. -/
def decodeProgress (n : ℕ) : List (ℕ × ℕ) :=
  (0, n) :: decodeProgressAux n 0 0 (n + 1)

/-- All `(current, total)` pairs reported from the start of the video
phase onwards in a clean run: `onProgress(0, totalFrames, …)` at render
start, `onProgress(i, totalFrames, …)` inside `processFrame` for every
`i % 30 === 0`, then `onProgress(totalFrames, totalFrames, …)` before the
video flush and again before the audio encode. -/
def renderProgress (f : ℕ) : List (ℕ × ℕ) :=
  ((0, f) :: ((List.range f).filter (fun i => i % 30 == 0)).map (fun i => (i, f)))
    ++ [(f, f), (f, f)]

/-- The full sequence of `(current, total)` pairs passed to `onProgress`
across one `renderPlaylist` invocation with `n` tracks and `f` total
frames, in call order. -/
def progressTrace (n f : ℕ) : List (ℕ × ℕ) :=
  decodeProgress n ++ renderProgress f

/-- Counterexample to C8 as stated: with 1 track and 30 total frames the
reported `current` values are `0, 1, 0, 0, 30, 30` — the first render-phase
call resets `current` to 0 after the decode phase reported 1, so the
sequence is not monotonically non-decreasing. -/
theorem progress_current_not_monotone :
    ¬ List.Pairwise (fun a b => a ≤ b) ((progressTrace 1 30).map Prod.fst) := by
  decide

theorem decodeProgressAux_bounds (n : ℕ) :
    ∀ fuel i p, ∀ c ∈ decodeProgressAux n i p fuel, min p n ≤ c.1 ∧ c.1 ≤ n := by
  intro fuel
  induction fuel with
  | zero => intro i p c hc; simp [decodeProgressAux] at hc
  | succ fuel ih =>
    intro i p c hc
    rw [decodeProgressAux] at hc
    by_cases hi : i < n
    · simp only [if_pos hi] at hc
      rcases List.mem_cons.mp hc with hc | hc
      · subst hc
        refine ⟨?_, ?_⟩
        · show min p n ≤ min (p + min 4 (n - i)) n
          omega
        · show min (p + min 4 (n - i)) n ≤ n
          omega
      · obtain ⟨h1, h2⟩ := ih (i + 4) (p + min 4 (n - i)) c hc
        exact ⟨le_trans (by omega) h1, h2⟩
    · simp [if_neg hi] at hc

theorem decodeProgressAux_pairwise (n : ℕ) :
    ∀ fuel i p, List.Pairwise (fun a b => a.1 ≤ b.1) (decodeProgressAux n i p fuel) := by
  intro fuel
  induction fuel with
  | zero => intro i p; simp [decodeProgressAux]
  | succ fuel ih =>
    intro i p
    rw [decodeProgressAux]
    by_cases hi : i < n
    · simp only [if_pos hi]
      refine List.Pairwise.cons ?_ (ih (i + 4) (p + min 4 (n - i)))
      intro c hc
      have := (decodeProgressAux_bounds n fuel (i + 4) (p + min 4 (n - i)) c hc).1
      simp only
      omega
    · simp [if_neg hi]

/-- C8 corrected: within each phase the reported `current` is monotonically
non-decreasing — across the decode-phase calls and across the render-phase
calls separately — but the whole-invocation sequence is the decode phase
followed by the render phase, whose first call resets `current` to 0. -/
theorem progress_current_monotone_within_phase (n f : ℕ) :
    progressTrace n f = decodeProgress n ++ renderProgress f ∧
    List.Pairwise (fun a b => a ≤ b) ((decodeProgress n).map Prod.fst) ∧
    List.Pairwise (fun a b => a ≤ b) ((renderProgress f).map Prod.fst) ∧
    (renderProgress f).head? = some (0, f) := by
  refine ⟨rfl, ?_, ?_, rfl⟩
  · apply List.pairwise_map.mpr
    refine List.Pairwise.cons ?_ (decodeProgressAux_pairwise n (n + 1) 0 0)
    intro c _
    exact Nat.zero_le _
  · apply List.pairwise_map.mpr
    rw [renderProgress, List.pairwise_append]
    have hmemf : ∀ c : ℕ × ℕ,
        c ∈ ((List.range f).filter (fun i => i % 30 == 0)).map (fun i => (i, f)) →
        c.1 < f := by
      intro c hc
      obtain ⟨i, hi, rfl⟩ := List.mem_map.mp hc
      exact List.mem_range.mp (List.mem_of_mem_filter hi)
    refine ⟨?_, ?_, ?_⟩
    · refine List.Pairwise.cons (fun c _ => Nat.zero_le _) ?_
      apply List.pairwise_map.mpr
      have : List.Pairwise (· < ·) ((List.range f).filter (fun i => i % 30 == 0)) :=
        (List.pairwise_lt_range f).sublist (List.filter_sublist _)
      exact this.imp le_of_lt
    · refine List.Pairwise.cons ?_ (by simp)
      intro c hc
      simp only [List.mem_singleton] at hc
      subst hc
      exact le_refl _
    · intro a ha b hb
      have hb2 : b.1 = f := by
        simp only [List.mem_cons, List.not_mem_nil, or_false] at hb
        rcases hb with rfl | rfl <;> rfl
      rcases List.mem_cons.mp ha with rfl | ha
      · simp [hb2]
      · have := hmemf a ha
        omega

/-- Witness for the corrected C8 at 1 track and 30 frames. -/
theorem progress_current_monotone_within_phase_witness :
    List.Pairwise (fun a b => a ≤ b) ((decodeProgress 1).map Prod.fst) ∧
    List.Pairwise (fun a b => a ≤ b) ((renderProgress 30).map Prod.fst) ∧
    (renderProgress 30).head? = some (0, 30) := by
  obtain ⟨_, h2, h3, h4⟩ := progress_current_monotone_within_phase 1 30
  exact ⟨h2, h3, h4⟩

/-! ### Cancellation outcome of `renderPlaylist` -/

/-- The batched decode loop with its cancellation guard: at the top of
every batch iteration `renderPlaylist` runs `if (signal.aborted) throw new
Error("Render Aborted")`.  `aborted i` is the flag state observed at the
iteration whose batch starts at track index `i`. -/
def decodeLoopAux (aborted : ℕ → Bool) (n : ℕ) : ℕ → ℕ → Except String Unit
  | _, 0 => .ok ()
  | i, fuel + 1 =>
    if i < n then
      if aborted i then .error "Render Aborted"
      else decodeLoopAux aborted n (i + 4) fuel
    else .ok ()

/-- Outcome of the decode phase of `renderPlaylist` over `n` tracks. -/
def decodeLoopOutcome (aborted : ℕ → Bool) (n : ℕ) : Except String Unit :=
  decodeLoopAux aborted n 0 (n + 1)

/-- Counterexample to C9 as stated: cancelling during the decode phase of a
one-track render makes `renderPlaylist` throw (`Error("Render Aborted")`),
the same thrown-error shape as an ordinary fatal failure — not a
non-throwing distinguishable "cancelled" outcome. -/
theorem cancelled_outcome_is_thrown :
    decodeLoopOutcome (fun _ => true) 1 = .error "Render Aborted" ∧
    decodeLoopOutcome (fun _ => true) 1 ≠ .ok () := by
  refine ⟨rfl, ?_⟩
  intro h
  simp [decodeLoopOutcome, decodeLoopAux] at h

theorem decodeLoopAux_error (aborted : ℕ → Bool) (n : ℕ) :
    ∀ fuel i, (∃ m, i + 4 * m < n ∧ aborted (i + 4 * m) = true) → n ≤ i + 4 * fuel →
      decodeLoopAux aborted n i fuel = .error "Render Aborted" := by
  intro fuel
  induction fuel with
  | zero =>
    intro i h hfuel
    obtain ⟨m, hm, _⟩ := h
    omega
  | succ fuel ih =>
    intro i h hfuel
    obtain ⟨m, hm, hab⟩ := h
    have hi : i < n := by omega
    rw [decodeLoopAux, if_pos hi]
    by_cases h0 : aborted i = true
    · rw [if_pos h0]
    · have hm0 : m ≠ 0 := by
        intro h
        subst h
        simp only [Nat.mul_zero, Nat.add_zero] at hab
        exact h0 hab
      rw [if_neg h0]
      refine ih (i + 4) ⟨m - 1, by omega, ?_⟩ (by omega)
      have : i + 4 + 4 * (m - 1) = i + 4 * m := by omega
      rw [this]
      exact hab

/-- C9 corrected: cancellation does not yield a distinguishable non-thrown
outcome — if the abort flag is set when some decode-batch boundary (a
multiple of `BATCH_SIZE = 4` below the track count) is reached,
`renderPlaylist` throws `Error("Render Aborted")`, an outcome of the same
thrown shape as a fatal failure, distinguishable only by its message (the
caller in `useExporter.startPlaylistExport` catches it in the same handler
as fatal errors). -/
theorem cancellation_throws_render_aborted (aborted : ℕ → Bool) (n : ℕ)
    (h : ∃ b, 4 * b < n ∧ aborted (4 * b) = true) :
    decodeLoopOutcome aborted n = .error "Render Aborted" := by
  obtain ⟨b, hb, hab⟩ := h
  exact decodeLoopAux_error aborted n (n + 1) 0
    ⟨b, by omega, by simpa using hab⟩ (by omega)

/-- Witness for the corrected C9: flag set from the start of a one-track
render. -/
theorem cancellation_throws_render_aborted_witness :
    decodeLoopOutcome (fun _ => true) 1 = .error "Render Aborted" :=
  cancellation_throws_render_aborted (fun _ => true) 1 ⟨0, by omega, rfl⟩

/-! ### `interleaveAudio` (planar → interleaved) -/

/-- A JS `Float32Array` of fixed `size`: reads are total, stores outside
`[0, size)` are dropped (as in JS typed arrays).  Sample values are
modelled exactly over `ℚ`. -/
structure Float32Arr where
  size : ℕ
  val : ℕ → ℚ

/-- Allocation `new Float32Array(n)` — zero-initialised. -/
def Float32Arr.zeros (n : ℕ) : Float32Arr := ⟨n, fun _ => 0⟩

/-- Store `arr[idx] = v`. -/
def Float32Arr.setAt (a : Float32Arr) (idx : ℕ) (v : ℚ) : Float32Arr :=
  if idx < a.size then ⟨a.size, fun k => if k = idx then v else a.val k⟩ else a

/-- A decoded planar `AudioBuffer`: `channelData c j` is
`getChannelData(c)[j]`. -/
structure AudioBuffer where
  numberOfChannels : ℕ
  length : ℕ
  channelData : ℕ → ℕ → ℚ

/-- Helper `interleaveAudio` from `RenderService`: allocate
`new Float32Array(length * numChannels)` and run
`for (i < numChannels) for (j < length) result[j * numChannels + i] =
channelData[j]`. -/
def interleaveAudio (buffer : AudioBuffer) : Float32Arr :=
  (List.range buffer.numberOfChannels).foldl
    (fun res i =>
      (List.range buffer.length).foldl
        (fun res2 j =>
          res2.setAt (j * buffer.numberOfChannels + i) (buffer.channelData i j))
        res)
    (Float32Arr.zeros (buffer.length * buffer.numberOfChannels))

theorem Float32Arr.size_setAt (a : Float32Arr) (idx : ℕ) (v : ℚ) :
    (a.setAt idx v).size = a.size := by
  rw [Float32Arr.setAt]
  split_ifs <;> rfl

theorem foldl_size_preserved {α : Type} (F : Float32Arr → α → Float32Arr)
    (hF : ∀ r x, (F r x).size = r.size) :
    ∀ (l : List α) (r : Float32Arr), (l.foldl F r).size = r.size := by
  intro l
  induction l with
  | nil => intro r; rfl
  | cons x xs ih => intro r; rw [List.foldl_cons, ih, hF]

theorem slot_lt (C L j c : ℕ) (hj : j < L) (hc : c < C) :
    j * C + c < L * C := by
  calc j * C + c < j * C + C := by omega
    _ = (j + 1) * C := by ring
    _ ≤ L * C := Nat.mul_le_mul_right C hj

theorem slot_inj (C j c m i : ℕ) (hc : c < C) (hi : i < C) :
    j * C + c = m * C + i ↔ j = m ∧ c = i := by
  constructor
  · intro h
    rcases lt_trichotomy j m with hlt | heq | hgt
    · exact absurd h (by have := slot_lt C m j c hlt hc; omega)
    · subst heq
      exact ⟨rfl, by omega⟩
    · exact absurd h.symm (by have := slot_lt C j m i hgt hi; omega)
  · rintro ⟨rfl, rfl⟩
    rfl

/-- Effect of the inner `for (j < m)` loop writing channel `i`. -/
theorem interleave_inner (buffer : AudioBuffer) (i : ℕ)
    (hi : i < buffer.numberOfChannels) :
    ∀ (m : ℕ) (res : Float32Arr),
      m ≤ buffer.length →
      res.size = buffer.length * buffer.numberOfChannels →
      ∀ j c, c < buffer.numberOfChannels →
        (((List.range m).foldl
          (fun res2 j =>
            res2.setAt (j * buffer.numberOfChannels + i) (buffer.channelData i j))
          res).val (j * buffer.numberOfChannels + c)
          = if c = i ∧ j < m then buffer.channelData i j
            else res.val (j * buffer.numberOfChannels + c)) := by
  intro m
  induction m with
  | zero =>
    intro res _ _ j c _
    simp
  | succ m ih =>
    intro res hm hsize j c hc
    rw [List.range_succ, List.foldl_append, List.foldl_cons, List.foldl_nil]
    have hsize' : ((List.range m).foldl
        (fun res2 j =>
          res2.setAt (j * buffer.numberOfChannels + i) (buffer.channelData i j))
        res).size = buffer.length * buffer.numberOfChannels := by
      rw [foldl_size_preserved _ (fun r x => Float32Arr.size_setAt r _ _), hsize]
    rw [Float32Arr.setAt, if_pos (by rw [hsize']; exact slot_lt _ _ _ _ (by omega) hi)]
    simp only
    by_cases heq : j * buffer.numberOfChannels + c = m * buffer.numberOfChannels + i
    · obtain ⟨rfl, rfl⟩ := (slot_inj _ _ _ _ _ hc hi).mp heq
      rw [if_pos heq, if_pos ⟨rfl, by omega⟩]
    · rw [if_neg heq, ih res (by omega) hsize j c hc]
      have hne : ¬ (c = i ∧ j = m) := by
        intro ⟨h1, h2⟩
        exact heq (by rw [h1, h2])
      by_cases hcm : c = i ∧ j < m
      · rw [if_pos hcm, if_pos ⟨hcm.1, by omega⟩]
      · rw [if_neg hcm, if_neg (by rintro ⟨h1, h2⟩; exact hcm ⟨h1, by omega⟩)]

/-- Effect of the outer `for (i < mc)` loop over channels. -/
theorem interleave_outer (buffer : AudioBuffer) :
    ∀ (mc : ℕ),
      mc ≤ buffer.numberOfChannels →
      ∀ j c, j < buffer.length → c < buffer.numberOfChannels →
        (((List.range mc).foldl
          (fun res i =>
            (List.range buffer.length).foldl
              (fun res2 j =>
                res2.setAt (j * buffer.numberOfChannels + i) (buffer.channelData i j))
              res)
          (Float32Arr.zeros (buffer.length * buffer.numberOfChannels))).val
            (j * buffer.numberOfChannels + c)
          = if c < mc then buffer.channelData c j else 0) := by
  intro mc
  induction mc with
  | zero =>
    intro _ j c _ _
    simp [Float32Arr.zeros]
  | succ mc ih =>
    intro hmc j c hj hc
    rw [List.range_succ, List.foldl_append, List.foldl_cons, List.foldl_nil]
    have hsz : ∀ mcx, (((List.range mcx).foldl
        (fun res i =>
          (List.range buffer.length).foldl
            (fun res2 j =>
              res2.setAt (j * buffer.numberOfChannels + i) (buffer.channelData i j))
            res)
        (Float32Arr.zeros (buffer.length * buffer.numberOfChannels)))).size
          = buffer.length * buffer.numberOfChannels := by
      intro mcx
      rw [foldl_size_preserved]
      · rfl
      · intro r x
        exact foldl_size_preserved _ (fun r2 x2 => Float32Arr.size_setAt r2 _ _) _ r
    rw [interleave_inner buffer mc (by omega) buffer.length _ (le_refl _) (hsz mc) j c hc]
    by_cases hcm : c = mc
    · rw [if_pos ⟨hcm, hj⟩, if_pos (by omega), hcm]
    · rw [if_neg (by rintro ⟨h1, _⟩; exact hcm h1), ih (by omega) j c hj hc]
      by_cases hlt : c < mc
      · rw [if_pos hlt, if_pos (by omega)]
      · rw [if_neg hlt, if_neg (by omega)]

/-- C10: `interleaveAudio` maps a planar buffer with `C` channels and `L`
frames per channel to a `Float32Array` of length `L * C` in which element
`j * C + c` is exactly channel `c`'s sample `j` (planar `LLLL…RRRR…` data
becomes `LRLR…` interleaved order with every sample value preserved). -/
theorem interleaveAudio_spec (buffer : AudioBuffer) :
    (interleaveAudio buffer).size = buffer.length * buffer.numberOfChannels ∧
    ∀ j c, j < buffer.length → c < buffer.numberOfChannels →
      (interleaveAudio buffer).val (j * buffer.numberOfChannels + c) =
        buffer.channelData c j := by
  constructor
  · rw [interleaveAudio, foldl_size_preserved]
    · rfl
    · intro r x
      exact foldl_size_preserved _ (fun r2 x2 => Float32Arr.size_setAt r2 _ _) _ r
  · intro j c hj hc
    rw [interleaveAudio, interleave_outer buffer buffer.numberOfChannels (le_refl _) j c hj hc,
      if_pos hc]

/-- Witness for C10: a stereo buffer with 3 frames per channel,
`channelData c j = 100 * c + j`; slot `1 * 2 + 1` holds channel 1's
sample 1. -/
theorem interleaveAudio_spec_witness :
    (interleaveAudio ⟨2, 3, fun c j => 100 * c + j⟩).size = 6 ∧
    (interleaveAudio ⟨2, 3, fun c j => 100 * c + j⟩).val 3 = 101 ∧
    (interleaveAudio ⟨2, 3, fun c j => 100 * c + j⟩).val 4 = 2 := by
  obtain ⟨hs, hv⟩ := interleaveAudio_spec ⟨2, 3, fun c j => 100 * c + j⟩
  refine ⟨hs, ?_, ?_⟩
  · have := hv 1 1 (by decide) (by decide)
    norm_num at this
    exact this
  · have := hv 2 0 (by decide) (by decide)
    norm_num at this
    exact this

end SpectrumStudio
